import Mathlib

/-!
Verification of the geometry-clipmap tile builder (src/src/geoclipmap.cpp).

The C++ core builds, for a tile size `S`, one vertex buffer, one index
buffer, placeholder normals/tangents, and an AABB, then submits them to the
rendering backend.  We embed the builder shallowly: Godot `Vector3` becomes a
record of exact rationals (every coordinate produced by the builder is a small
integer or half-integer, exactly representable in `float`, so rational
arithmetic is faithful), the packed arrays become Lean lists built in the same
write order as the C++ `n++` counter (the code resizes each array and then
writes slots `0, 1, 2, ...` sequentially, so the final array content is
exactly the list of written values, in order), and the opaque `RID` mesh
handle becomes the record of data handed to the backend.
-/

/-- Embedding of Godot `Vector3`, with exact rational components. -/
structure Vec3 where
  x : ℚ
  y : ℚ
  z : ℚ
deriving DecidableEq, Repr

/-- Componentwise sum, embedding `Vector3::operator+`. -/
def vadd (a b : Vec3) : Vec3 :=
  ⟨a.x + b.x, a.y + b.y, a.z + b.z⟩

/-- Componentwise difference, embedding `Vector3::operator-`. -/
def vsub (a b : Vec3) : Vec3 :=
  ⟨a.x - b.x, a.y - b.y, a.z - b.z⟩

/-- Cross product, embedding `Vector3::cross`. -/
def vcross (a b : Vec3) : Vec3 :=
  ⟨a.y * b.z - a.z * b.y, a.z * b.x - a.x * b.z, a.x * b.y - a.y * b.x⟩

/-- The zero vector, used as the default for out-of-range lookups. -/
def vzero : Vec3 := ⟨0, 0, 0⟩

/-- Embedding of Godot `AABB`: a position corner and a size. -/
structure AABBox where
  position : Vec3
  size : Vec3
deriving DecidableEq, Repr

/-- Modelled from the spec: `_patch_2d` is declared in `geoclipmap.h`, which
is not part of the provided sources; the spec gives the row-major index
function `patch(x, y, width) = y * width + x`. -/
def patch2d (x y width : ℕ) : ℕ :=
  y * width + x

/-- Embedding of `Vector3 offset = Vector3(-p_size * 0.5f - 1.0f, 0, -p_size * 0.5f - 1.0f)`
(geoclipmap.cpp line 75). -/
def offset (S : ℕ) : Vec3 :=
  ⟨-(S : ℚ) * 0.5 - 1.0, 0, -(S : ℚ) * 0.5 - 1.0⟩

/-- Embedding of the interior vertex double loop (geoclipmap.cpp lines 78-85):
row-major over the `(S+3) x (S+3)` grid, writing `Vector3(x, 0, y) + offset`,
except that the `break` at `x = S+2, y = S+2` skips exactly the final corner
vertex of the last row (after the break the outer loop also terminates). -/
def interiorVertices (S : ℕ) : List Vec3 :=
  (List.range (S + 3)).flatMap fun y =>
    (List.range (S + 3)).flatMap fun x =>
      if x = S + 2 ∧ y = S + 2 then [] else [vadd ⟨(x : ℚ), 0, (y : ℚ)⟩ (offset S)]

/-- Embedding of the vertical stitch-strip vertex loop (geoclipmap.cpp
lines 86-88): `S+1` vertices `Vector3(p_size + 2, 0, y + 0.5f) + offset`. -/
def stripVerticesV (S : ℕ) : List Vec3 :=
  (List.range (S + 1)).map fun (y : ℕ) =>
    vadd ⟨(S : ℚ) + 2, 0, (y : ℚ) + 0.5⟩ (offset S)

/-- Embedding of the horizontal stitch-strip vertex loop (geoclipmap.cpp
lines 89-91): `S+1` vertices `Vector3(x + 0.5f, 0, p_size + 2) + offset`. -/
def stripVerticesH (S : ℕ) : List Vec3 :=
  (List.range (S + 1)).map fun (x : ℕ) =>
    vadd ⟨(x : ℚ) + 0.5, 0, (S : ℚ) + 2⟩ (offset S)

/-- All vertex writes of `generate`, in the order of the write counter `n`
(the interior grid, then the vertical strip, then the horizontal strip). -/
def vertices (S : ℕ) : List Vec3 :=
  interiorVertices S ++ stripVerticesV S ++ stripVerticesH S

/-- Embedding of the interior triangulation loop (geoclipmap.cpp lines
94-104): for each cell, row-major, the six indices of its two triangles. -/
def interiorIndices (S : ℕ) : List ℕ :=
  (List.range (S + 1)).flatMap fun y =>
    (List.range (S + 1)).flatMap fun x =>
      [patch2d x y (S + 3), patch2d (x + 1) (y + 1) (S + 3), patch2d x (y + 1) (S + 3),
        patch2d x y (S + 3), patch2d (x + 1) y (S + 3), patch2d (x + 1) (y + 1) (S + 3)]

/-- Embedding of the first (vertical-side) stitch loop (geoclipmap.cpp lines
105-118).  The C++ apex counter `m` starts at `(S+3)*(S+3) - 1` and is
post-incremented once per iteration (`m++` on the ninth write), so in
iteration `y` its value is `(S+3)*(S+3) - 1 + y`. -/
def stitchIndicesV (S : ℕ) : List ℕ :=
  (List.range (S + 1)).flatMap fun y =>
    [patch2d (S + 1) y (S + 3), patch2d (S + 2) y (S + 3), (S + 3) * (S + 3) - 1 + y,
      patch2d (S + 1) (y + 1) (S + 3), patch2d (S + 1) y (S + 3), (S + 3) * (S + 3) - 1 + y,
      patch2d (S + 2) (y + 1) (S + 3), patch2d (S + 1) (y + 1) (S + 3),
      (S + 3) * (S + 3) - 1 + y]

/-- Embedding of the second (horizontal-side) stitch loop (geoclipmap.cpp
lines 119-131).  The apex counter `m` continues from the first stitch loop,
so in iteration `x` its value is `(S+3)*(S+3) - 1 + (S+1) + x`. -/
def stitchIndicesH (S : ℕ) : List ℕ :=
  (List.range (S + 1)).flatMap fun x =>
    [patch2d x (S + 2) (S + 3), patch2d x (S + 1) (S + 3), (S + 3) * (S + 3) - 1 + (S + 1) + x,
      patch2d x (S + 1) (S + 3), patch2d (x + 1) (S + 1) (S + 3),
      (S + 3) * (S + 3) - 1 + (S + 1) + x,
      patch2d (x + 1) (S + 1) (S + 3), patch2d (x + 1) (S + 2) (S + 3),
      (S + 3) * (S + 3) - 1 + (S + 1) + x]

/-- All index writes of `generate`, in the order of the write counter `n`. -/
def indices (S : ℕ) : List ℕ :=
  interiorIndices S ++ stitchIndicesV S ++ stitchIndicesH S

/-- The vertex array resize amount, `(p_size + 3) * (p_size + 3) + (p_size + 1) * 2 - 1`
(geoclipmap.cpp line 71). -/
def vertexResize (S : ℕ) : ℕ :=
  (S + 3) * (S + 3) + (S + 1) * 2 - 1

/-- The index array resize amount, `(p_size + 1) * (p_size + 1) * 6 + (p_size + 1) * 9 * 2`
(geoclipmap.cpp line 73). -/
def indexResize (S : ℕ) : ℕ :=
  (S + 1) * (S + 1) * 6 + (S + 1) * 9 * 2

/-- The data handed to the rendering backend for one mesh: positions,
indices, normals, tangents and the custom AABB.  This record embeds the
otherwise-opaque `RID` mesh handle by its observable content. -/
structure MeshData where
  vertices : List Vec3
  indices : List ℕ
  normals : List Vec3
  tangents : List ℚ
  aabb : AABBox
deriving DecidableEq

/-- Embedding of `GeoClipMap::_create_mesh` (geoclipmap.cpp lines 12-36):
normals is resized to the vertex count and filled with `(0, 1, 0)`, tangents
is resized to four times the vertex count and filled with `0.0f`, and the
custom AABB is set on the created mesh. -/
def createMesh (vs : List Vec3) (is : List ℕ) (bb : AABBox) : MeshData :=
  { vertices := vs
    indices := is
    normals := List.replicate vs.length ⟨0, 1, 0⟩
    tangents := List.replicate (vs.length * 4) 0
    aabb := bb }

/-- Embedding of `GeoClipMap::generate` (geoclipmap.cpp lines 48-142): builds
the tile vertex and index buffers, the AABB `AABB(offset, Vector3(p_size + 2, 1, p_size + 2))`,
creates one mesh from them, and returns the one-element handle vector
`{ tile_mesh }`.  The `levels` parameter is only logged by the C++ code and
does not influence the construction. -/
def generate (S levels : ℕ) : List MeshData :=
  [createMesh (vertices S) (indices S)
    { position := offset S, size := ⟨(S : ℚ) + 2, 1, (S : ℚ) + 2⟩ }]

/-- Groups a flat index list into consecutive triangles, the way the backend
interprets a `PRIMITIVE_TRIANGLES` surface. -/
def triples : List ℕ → List (ℕ × ℕ × ℕ)
  | a :: b :: c :: rest => (a, b, c) :: triples rest
  | _ => []

/-- Modelled from the spec: the interior triangulation exactly as the spec
words it — for every cell `(x,y)` in `[0,S] x [0,S]`, in row-major cell
order, two triangles `(x,y)-(x+1,y+1)-(x,y+1)` and `(x,y)-(x+1,y)-(x+1,y+1)`
with corners resolved by the row-major function `y * width + x` over the
`(S+3)`-wide grid. -/
def interiorIndicesSpec (S : ℕ) : List ℕ :=
  (List.range (S + 1)).flatMap fun y =>
    (List.range (S + 1)).flatMap fun x =>
      [y * (S + 3) + x, (y + 1) * (S + 3) + (x + 1), (y + 1) * (S + 3) + x,
        y * (S + 3) + x, y * (S + 3) + (x + 1), (y + 1) * (S + 3) + (x + 1)]

/-- The edge cross product named by the spec: (second corner - first corner)
crossed with (third corner - first corner), on the positions the triangle's
indices select in the vertex buffer. -/
def triCross (vs : List Vec3) (t : ℕ × ℕ × ℕ) : Vec3 :=
  vcross (vsub (vs.getD t.2.1 vzero) (vs.getD t.1 vzero))
    (vsub (vs.getD t.2.2 vzero) (vs.getD t.1 vzero))

/-- Decoded through the row-major layout, vertex index `i` is a corner of
cell `(cx, cy)` when its column is `cx` or `cx+1` and its row is `cy` or
`cy+1`. -/
def cornerInCell (S cx cy i : ℕ) : Bool :=
  (i % (S + 3) == cx || i % (S + 3) == cx + 1) &&
    (i / (S + 3) == cy || i / (S + 3) == cy + 1)

/-- A triangle lies in cell `(cx, cy)` when all three of its corners do. -/
def triInCell (S cx cy : ℕ) (t : ℕ × ℕ × ℕ) : Bool :=
  cornerInCell S cx cy t.1 && cornerInCell S cx cy t.2.1 && cornerInCell S cx cy t.2.2

/-- How many interior triangles lie in cell `(cx, cy)`. -/
def coverCount (S cx cy : ℕ) : ℕ :=
  ((triples (interiorIndices S)).filter (triInCell S cx cy)).length

/-! Helper lemmas about flat maps over ranges. -/

lemma length_flatMap_const {α β : Type} (l : List α) (f : α → List β) (k : ℕ)
    (h : ∀ a ∈ l, (f a).length = k) : (l.flatMap f).length = l.length * k := by
  induction l with
  | nil => simp
  | cons a l ih =>
    rw [List.flatMap_cons, List.length_append, h a (by simp), List.length_cons,
      ih fun b hb => h b (by simp [hb])]
    ring

lemma flatMap_singleton_eq_map {α β : Type} (l : List α) (f : α → β) :
    (l.flatMap fun a => [f a]) = l.map f := by
  induction l with
  | nil => rfl
  | cons a l ih => rw [List.flatMap_cons, List.map_cons, List.singleton_append, ih]

lemma getD_flatMap_range {β : Type} :
    ∀ (n : ℕ) (f : ℕ → List β) (k i j : ℕ) (d : β),
      (∀ a, a < n → (f a).length = k) → i < n → j < k →
      ((List.range n).flatMap f).getD (i * k + j) d = (f i).getD j d := by
  intro n
  induction n with
  | zero => intro f k i j d hlen hi hj; omega
  | succ n ih =>
    intro f k i j d hlen hi hj
    rw [List.range_succ_eq_map, List.flatMap_cons, List.flatMap_map]
    cases i with
    | zero =>
      rw [Nat.zero_mul, Nat.zero_add]
      exact List.getD_append _ _ _ _ (by rw [hlen 0 (by omega)]; exact hj)
    | succ i =>
      rw [List.getD_append_right _ _ _ _ (by rw [hlen 0 (by omega)]; nlinarith)]
      have harith : (i + 1) * k + j - (f 0).length = i * k + j := by
        rw [hlen 0 (by omega)]; ring_nf; omega
      rw [harith]
      exact ih (fun a => f (a + 1)) k i j d (fun a ha => hlen (a + 1) (by omega))
        (by omega) hj
lemma sum_map_length_const {α : Type} (l : List α) (g : α → ℕ) (k : ℕ)
    (h : ∀ a ∈ l, g a = k) : (l.map g).sum = l.length * k := by
  induction l with
  | nil => simp
  | cons a l ih =>
    rw [List.map_cons, List.sum_cons, h a (by simp), List.length_cons,
      ih fun b hb => h b (by simp [hb])]
    ring

lemma flatMap_range_eq_append {β : Type} (f : ℕ → List β) (n m : ℕ) (h : m = n + 1) :
    (List.range m).flatMap f = (List.range n).flatMap f ++ f n := by
  subst h
  rw [List.range_succ, List.flatMap_append, List.flatMap_singleton]

/-- A full interior row: for `y` below the last row, the skip condition never
fires, so the row is the plain map over the `S+3` columns. -/
lemma interiorRow_eq (S y : ℕ) (hy : y ≠ S + 2) :
    ((List.range (S + 3)).flatMap fun x =>
      if x = S + 2 ∧ y = S + 2 then [] else [vadd ⟨(x : ℚ), 0, (y : ℚ)⟩ (offset S)]) =
    (List.range (S + 3)).map fun (x : ℕ) => vadd ⟨(x : ℚ), 0, (y : ℚ)⟩ (offset S) := by
  rw [← flatMap_singleton_eq_map]
  refine List.flatMap_congr fun x hx => if_neg ?_
  exact fun hc => hy hc.2

/-- The last interior row: the skip condition fires exactly at `x = S + 2`,
the final column, so the row is the map over the first `S+2` columns. -/
lemma interiorRowLast_eq (S : ℕ) :
    ((List.range (S + 3)).flatMap fun x =>
      if x = S + 2 ∧ S + 2 = S + 2 then [] else [vadd ⟨(x : ℚ), 0, ((S + 2 : ℕ) : ℚ)⟩ (offset S)]) =
    (List.range (S + 2)).map fun (x : ℕ) => vadd ⟨(x : ℚ), 0, ((S + 2 : ℕ) : ℚ)⟩ (offset S) := by
  rw [flatMap_range_eq_append (n := S + 2) (h := rfl)]
  rw [if_pos ⟨rfl, rfl⟩, List.append_nil, ← flatMap_singleton_eq_map]
  refine List.flatMap_congr fun x hx => if_neg ?_
  rw [List.mem_range] at hx
  omega

/-- Closed form of the interior vertex block: `S+2` full rows of `S+3`
vertices, then one last row of `S+2` vertices (the final corner skipped). -/
lemma interiorVertices_eq (S : ℕ) :
    interiorVertices S =
      ((List.range (S + 2)).flatMap fun (y : ℕ) =>
        (List.range (S + 3)).map fun (x : ℕ) => vadd ⟨(x : ℚ), 0, (y : ℚ)⟩ (offset S)) ++
      ((List.range (S + 2)).map fun (x : ℕ) => vadd ⟨(x : ℚ), 0, ((S + 2 : ℕ) : ℚ)⟩ (offset S)) := by
  rw [interiorVertices, flatMap_range_eq_append (n := S + 2) (h := rfl)]
  congr 1
  · exact List.flatMap_congr fun y hy =>
      interiorRow_eq S y (by rw [List.mem_range] at hy; omega)
  · exact interiorRowLast_eq S

lemma length_interiorVertices (S : ℕ) :
    (interiorVertices S).length = (S + 3) * (S + 3) - 1 := by
  rw [interiorVertices_eq, List.length_append, List.length_flatMap,
    sum_map_length_const _ _ (S + 3), List.length_range, List.length_map, List.length_range]
  · have h : (S + 3) * (S + 3) = (S + 2) * (S + 3) + (S + 3) := by ring
    rw [h]
    omega
  · intro y hy
    simp only [Function.comp_apply]
    rw [List.length_map, List.length_range]

lemma length_stripVerticesV (S : ℕ) : (stripVerticesV S).length = S + 1 := by
  rw [stripVerticesV, List.length_map, List.length_range]

lemma length_stripVerticesH (S : ℕ) : (stripVerticesH S).length = S + 1 := by
  rw [stripVerticesH, List.length_map, List.length_range]

lemma length_vertices (S : ℕ) :
    (vertices S).length = (S + 3) * (S + 3) - 1 + (S + 1) + (S + 1) := by
  rw [vertices, List.length_append, List.length_append, length_interiorVertices,
    length_stripVerticesV, length_stripVerticesH]

lemma length_interiorIndices (S : ℕ) :
    (interiorIndices S).length = (S + 1) * ((S + 1) * 6) := by
  rw [interiorIndices, List.length_flatMap, sum_map_length_const _ _ ((S + 1) * 6),
    List.length_range]
  intro y hy
  simp only [Function.comp_apply]
  rw [List.length_flatMap, sum_map_length_const _ _ 6, List.length_range]
  intro x hx
  rfl

lemma length_stitchIndicesV (S : ℕ) :
    (stitchIndicesV S).length = (S + 1) * 9 := by
  rw [stitchIndicesV, List.length_flatMap, sum_map_length_const _ _ 9, List.length_range]
  intro y hy
  rfl

lemma length_stitchIndicesH (S : ℕ) :
    (stitchIndicesH S).length = (S + 1) * 9 := by
  rw [stitchIndicesH, List.length_flatMap, sum_map_length_const _ _ 9, List.length_range]
  intro x hx
  rfl

lemma length_indices (S : ℕ) :
    (indices S).length = (S + 1) * ((S + 1) * 6) + (S + 1) * 9 + (S + 1) * 9 := by
  rw [indices, List.length_append, List.length_append, length_interiorIndices,
    length_stitchIndicesV, length_stitchIndicesH]

lemma getD_map_range {β : Type} (f : ℕ → β) (n j : ℕ) (d : β) (h : j < n) :
    ((List.range n).map f).getD j d = f j := by
  rw [List.getD_eq_getElem _ _ (by rw [List.length_map, List.length_range]; exact h),
    List.getElem_map, List.getElem_range]

lemma length_interiorBlock (S : ℕ) :
    ((List.range (S + 2)).flatMap fun (y : ℕ) =>
      (List.range (S + 3)).map fun (x : ℕ) => vadd ⟨(x : ℚ), 0, (y : ℚ)⟩ (offset S)).length
    = (S + 2) * (S + 3) := by
  rw [List.length_flatMap, sum_map_length_const _ _ (S + 3), List.length_range]
  intro y hy
  simp only [Function.comp_apply]
  rw [List.length_map, List.length_range]

/-- Reading back an interior vertex: the slot `patch2d a b (S+3)` of the
vertex buffer holds the grid vertex `(a, 0, b) + offset`, for every grid
position except the skipped final corner. -/
lemma vertices_getD_interior (S a b : ℕ) (ha : a < S + 3) (hb : b < S + 3)
    (hno : ¬(a = S + 2 ∧ b = S + 2)) :
    (vertices S).getD (patch2d a b (S + 3)) vzero = vadd ⟨(a : ℚ), 0, (b : ℚ)⟩ (offset S) := by
  have hlt : b * (S + 3) + a + 1 < (S + 3) * (S + 3) := by
    rcases Nat.lt_or_ge b (S + 2) with hb2 | hb2
    · nlinarith
    · have hbe : b = S + 2 := by omega
      have hae : a < S + 2 := by
        rcases Nat.lt_or_ge a (S + 2) with h | h
        · exact h
        · exact absurd ⟨by omega, hbe⟩ hno
      nlinarith
  have hlen : patch2d a b (S + 3) < (interiorVertices S).length := by
    rw [length_interiorVertices, patch2d]
    omega
  rw [vertices, List.append_assoc, List.getD_append _ _ _ _ hlen]
  rw [interiorVertices_eq, patch2d]
  rcases Nat.lt_or_ge b (S + 2) with hb2 | hb2
  · have hblock : b * (S + 3) + a <
        ((List.range (S + 2)).flatMap fun (y : ℕ) =>
          (List.range (S + 3)).map fun (x : ℕ) =>
            vadd ⟨(x : ℚ), 0, (y : ℚ)⟩ (offset S)).length := by
      rw [length_interiorBlock]
      nlinarith
    rw [List.getD_append _ _ _ _ hblock]
    rw [getD_flatMap_range (S + 2)
      (fun (y : ℕ) => (List.range (S + 3)).map fun (x : ℕ) =>
        vadd ⟨(x : ℚ), 0, (y : ℚ)⟩ (offset S))
      (S + 3) b a vzero
      (fun c hc => by rw [List.length_map, List.length_range]) hb2 ha]
    exact getD_map_range _ _ _ _ ha
  · have hbe : b = S + 2 := by omega
    have hae : a < S + 2 := by
      rcases Nat.lt_or_ge a (S + 2) with h | h
      · exact h
      · exact absurd ⟨by omega, hbe⟩ hno
    subst hbe
    have hge : ((List.range (S + 2)).flatMap fun (y : ℕ) =>
        (List.range (S + 3)).map fun (x : ℕ) =>
          vadd ⟨(x : ℚ), 0, (y : ℚ)⟩ (offset S)).length ≤ (S + 2) * (S + 3) + a := by
      rw [length_interiorBlock]
      omega
    rw [List.getD_append_right _ _ _ _ hge, length_interiorBlock]
    have hsub : (S + 2) * (S + 3) + a - (S + 2) * (S + 3) = a := by omega
    rw [hsub]
    exact getD_map_range _ _ _ _ hae

/-- Reading back a vertical-strip vertex: slot `(S+3)*(S+3) - 1 + t` (the
apex slots of the first stitch fan) holds the strip vertex
`(S+2, 0, t+0.5) + offset`. -/
lemma vertices_getD_stripV (S t : ℕ) (ht : t < S + 1) :
    (vertices S).getD ((S + 3) * (S + 3) - 1 + t) vzero =
      vadd ⟨(S : ℚ) + 2, 0, (t : ℚ) + 0.5⟩ (offset S) := by
  have h9 : 9 ≤ (S + 3) * (S + 3) := by nlinarith
  rw [vertices, List.append_assoc,
    List.getD_append_right _ _ _ _ (by rw [length_interiorVertices]; omega),
    length_interiorVertices]
  have hsub : (S + 3) * (S + 3) - 1 + t - ((S + 3) * (S + 3) - 1) = t := by omega
  rw [hsub, List.getD_append _ _ _ _ (by rw [length_stripVerticesV]; exact ht), stripVerticesV]
  exact getD_map_range _ _ _ _ ht

/-- Reading back a horizontal-strip vertex: slot `(S+3)*(S+3) - 1 + (S+1) + t`
(the apex slots of the second stitch fan) holds the strip vertex
`(t+0.5, 0, S+2) + offset`. -/
lemma vertices_getD_stripH (S t : ℕ) (ht : t < S + 1) :
    (vertices S).getD ((S + 3) * (S + 3) - 1 + (S + 1) + t) vzero =
      vadd ⟨(t : ℚ) + 0.5, 0, (S : ℚ) + 2⟩ (offset S) := by
  have h9 : 9 ≤ (S + 3) * (S + 3) := by nlinarith
  rw [vertices, List.append_assoc,
    List.getD_append_right _ _ _ _ (by rw [length_interiorVertices]; omega),
    length_interiorVertices]
  have hsub : (S + 3) * (S + 3) - 1 + (S + 1) + t - ((S + 3) * (S + 3) - 1) = (S + 1) + t := by
    omega
  rw [hsub, List.getD_append_right _ _ _ _ (by rw [length_stripVerticesV]; omega),
    length_stripVerticesV]
  have hsub2 : S + 1 + t - (S + 1) = t := by omega
  rw [hsub2, stripVerticesH]
  exact getD_map_range _ _ _ _ ht

lemma triples_flatMap_pres {α : Type} (f : α → List ℕ) (g : α → List (ℕ × ℕ × ℕ))
    (hfg : ∀ a r, triples (f a ++ r) = g a ++ triples r) (l : List α) (r : List ℕ) :
    triples (l.flatMap f ++ r) = l.flatMap g ++ triples r := by
  induction l with
  | nil => simp
  | cons a l ih =>
    rw [List.flatMap_cons, List.flatMap_cons, List.append_assoc, hfg, ih, List.append_assoc]

/-- The interior index stream, grouped into triangles: two triangles per
cell, cells in row-major order. -/
lemma triples_interiorIndices (S : ℕ) :
    triples (interiorIndices S) =
      (List.range (S + 1)).flatMap fun y =>
        (List.range (S + 1)).flatMap fun x =>
          [(patch2d x y (S + 3), patch2d (x + 1) (y + 1) (S + 3), patch2d x (y + 1) (S + 3)),
            (patch2d x y (S + 3), patch2d (x + 1) y (S + 3), patch2d (x + 1) (y + 1) (S + 3))] := by
  have h := triples_flatMap_pres
    (fun y => (List.range (S + 1)).flatMap fun x =>
      [patch2d x y (S + 3), patch2d (x + 1) (y + 1) (S + 3), patch2d x (y + 1) (S + 3),
        patch2d x y (S + 3), patch2d (x + 1) y (S + 3), patch2d (x + 1) (y + 1) (S + 3)])
    (fun y => (List.range (S + 1)).flatMap fun x =>
      [(patch2d x y (S + 3), patch2d (x + 1) (y + 1) (S + 3), patch2d x (y + 1) (S + 3)),
        (patch2d x y (S + 3), patch2d (x + 1) y (S + 3), patch2d (x + 1) (y + 1) (S + 3))])
    (fun y r => triples_flatMap_pres
      (fun x => [patch2d x y (S + 3), patch2d (x + 1) (y + 1) (S + 3), patch2d x (y + 1) (S + 3),
        patch2d x y (S + 3), patch2d (x + 1) y (S + 3), patch2d (x + 1) (y + 1) (S + 3)])
      (fun x => [(patch2d x y (S + 3), patch2d (x + 1) (y + 1) (S + 3), patch2d x (y + 1) (S + 3)),
        (patch2d x y (S + 3), patch2d (x + 1) y (S + 3), patch2d (x + 1) (y + 1) (S + 3))])
      (fun x r2 => rfl) (List.range (S + 1)) r)
    (List.range (S + 1)) []
  rw [List.append_nil] at h
  rw [interiorIndices, h, show triples ([] : List ℕ) = [] from rfl, List.append_nil]

/-- The vertical-side stitch index stream, grouped into triangles: three
triangles per edge segment `y`, all three referencing the moving apex
`(S+3)*(S+3) - 1 + y`. -/
lemma triples_stitchIndicesV (S : ℕ) :
    triples (stitchIndicesV S) =
      (List.range (S + 1)).flatMap fun y =>
        [(patch2d (S + 1) y (S + 3), patch2d (S + 2) y (S + 3), (S + 3) * (S + 3) - 1 + y),
          (patch2d (S + 1) (y + 1) (S + 3), patch2d (S + 1) y (S + 3), (S + 3) * (S + 3) - 1 + y),
          (patch2d (S + 2) (y + 1) (S + 3), patch2d (S + 1) (y + 1) (S + 3),
            (S + 3) * (S + 3) - 1 + y)] := by
  have h := triples_flatMap_pres
    (fun y => [patch2d (S + 1) y (S + 3), patch2d (S + 2) y (S + 3), (S + 3) * (S + 3) - 1 + y,
      patch2d (S + 1) (y + 1) (S + 3), patch2d (S + 1) y (S + 3), (S + 3) * (S + 3) - 1 + y,
      patch2d (S + 2) (y + 1) (S + 3), patch2d (S + 1) (y + 1) (S + 3),
      (S + 3) * (S + 3) - 1 + y])
    (fun y => [(patch2d (S + 1) y (S + 3), patch2d (S + 2) y (S + 3), (S + 3) * (S + 3) - 1 + y),
      (patch2d (S + 1) (y + 1) (S + 3), patch2d (S + 1) y (S + 3), (S + 3) * (S + 3) - 1 + y),
      (patch2d (S + 2) (y + 1) (S + 3), patch2d (S + 1) (y + 1) (S + 3),
        (S + 3) * (S + 3) - 1 + y)])
    (fun y r => rfl) (List.range (S + 1)) []
  rw [List.append_nil] at h
  rw [stitchIndicesV, h, show triples ([] : List ℕ) = [] from rfl, List.append_nil]

/-- The horizontal-side stitch index stream, grouped into triangles: three
triangles per edge segment `x`, all three referencing the moving apex
`(S+3)*(S+3) - 1 + (S+1) + x`. -/
lemma triples_stitchIndicesH (S : ℕ) :
    triples (stitchIndicesH S) =
      (List.range (S + 1)).flatMap fun x =>
        [(patch2d x (S + 2) (S + 3), patch2d x (S + 1) (S + 3),
            (S + 3) * (S + 3) - 1 + (S + 1) + x),
          (patch2d x (S + 1) (S + 3), patch2d (x + 1) (S + 1) (S + 3),
            (S + 3) * (S + 3) - 1 + (S + 1) + x),
          (patch2d (x + 1) (S + 1) (S + 3), patch2d (x + 1) (S + 2) (S + 3),
            (S + 3) * (S + 3) - 1 + (S + 1) + x)] := by
  have h := triples_flatMap_pres
    (fun x => [patch2d x (S + 2) (S + 3), patch2d x (S + 1) (S + 3),
      (S + 3) * (S + 3) - 1 + (S + 1) + x,
      patch2d x (S + 1) (S + 3), patch2d (x + 1) (S + 1) (S + 3),
      (S + 3) * (S + 3) - 1 + (S + 1) + x,
      patch2d (x + 1) (S + 1) (S + 3), patch2d (x + 1) (S + 2) (S + 3),
      (S + 3) * (S + 3) - 1 + (S + 1) + x])
    (fun x => [(patch2d x (S + 2) (S + 3), patch2d x (S + 1) (S + 3),
        (S + 3) * (S + 3) - 1 + (S + 1) + x),
      (patch2d x (S + 1) (S + 3), patch2d (x + 1) (S + 1) (S + 3),
        (S + 3) * (S + 3) - 1 + (S + 1) + x),
      (patch2d (x + 1) (S + 1) (S + 3), patch2d (x + 1) (S + 2) (S + 3),
        (S + 3) * (S + 3) - 1 + (S + 1) + x)])
    (fun x r => rfl) (List.range (S + 1)) []
  rw [List.append_nil] at h
  rw [stitchIndicesH, h, show triples ([] : List ℕ) = [] from rfl, List.append_nil]

/-- C1: for every size `S ≥ 0`, `generate` builds a vertex sequence of
length `(S+3)^2 - 1 + 2(S+1)` and an index sequence of length
`6(S+1)^2 + 18(S+1)`, the index count is a multiple of 3, and for `S = 0`
the counts are 10 and 24. -/
theorem C1_buffer_counts :
    (∀ S : ℕ, (vertices S).length = (S + 3) ^ 2 - 1 + 2 * (S + 1) ∧
      (indices S).length = 6 * (S + 1) ^ 2 + 18 * (S + 1) ∧
      3 ∣ (indices S).length) ∧
    (vertices 0).length = 10 ∧ (indices 0).length = 24 := by
  refine ⟨fun S => ⟨?_, ?_, ?_⟩, by decide, by decide⟩
  · rw [length_vertices, pow_two]
    have h9 : 9 ≤ (S + 3) * (S + 3) := by nlinarith
    omega
  · rw [length_indices]
    ring
  · rw [length_indices]
    exact ⟨(S + 1) * ((S + 1) * 2) + (S + 1) * 3 + (S + 1) * 3, by ring⟩

/-- C2: every value written into the index sequence (interior triangles and
both stitch strips, including every value of the moving apex counter `m`)
lies in the half-open range `[0, vertexCount)` with
`vertexCount = (S+3)^2 - 1 + 2(S+1)`; the lower bound is automatic since the
embedded indices are naturals. -/
theorem C2_indices_in_range (S i : ℕ) (hi : i ∈ indices S) :
    i < (S + 3) ^ 2 - 1 + 2 * (S + 1) := by
  have h9 : 9 ≤ (S + 3) * (S + 3) := by nlinarith
  have hR : (S + 3) ^ 2 - 1 + 2 * (S + 1) = (S + 3) * (S + 3) + 2 * S + 1 := by
    rw [pow_two]
    omega
  rw [hR]
  rw [indices, List.mem_append, List.mem_append] at hi
  rcases hi with (hi | hi) | hi
  · rw [interiorIndices, List.mem_flatMap] at hi
    obtain ⟨y, hy, hi⟩ := hi
    rw [List.mem_flatMap] at hi
    obtain ⟨x, hx, hi⟩ := hi
    rw [List.mem_range] at hy
    rw [List.mem_range] at hx
    simp only [List.mem_cons, List.not_mem_nil, or_false, patch2d] at hi
    rcases hi with h | h | h | h | h | h
    all_goals subst h
    all_goals nlinarith
  · rw [stitchIndicesV, List.mem_flatMap] at hi
    obtain ⟨y, hy, hi⟩ := hi
    rw [List.mem_range] at hy
    simp only [List.mem_cons, List.not_mem_nil, or_false, patch2d] at hi
    rcases hi with h | h | h | h | h | h | h | h | h
    all_goals subst h
    all_goals first
    | omega
    | nlinarith
  · rw [stitchIndicesH, List.mem_flatMap] at hi
    obtain ⟨x, hx, hi⟩ := hi
    rw [List.mem_range] at hx
    simp only [List.mem_cons, List.not_mem_nil, or_false, patch2d] at hi
    rcases hi with h | h | h | h | h | h | h | h | h
    all_goals subst h
    all_goals first
    | omega
    | nlinarith

/-- Witness for C2 at `S = 0`, `i = 0`. -/
theorem C2_indices_in_range_w :
    (0 : ℕ) ∈ indices 0 ∧ (0 : ℕ) < (0 + 3) ^ 2 - 1 + 2 * (0 + 1) :=
  ⟨by decide, C2_indices_in_range 0 0 (by decide)⟩

/-- C7: the AABB handed to mesh assembly has position equal to the computed
offset `(-S/2 - 1, 0, -S/2 - 1)` and size `(S+2, 1, S+2)`. -/
theorem C7_aabb (S levels : ℕ) (md : MeshData) (hmd : md ∈ generate S levels) :
    md.aabb.position = offset S ∧
    md.aabb.position = ⟨-(S : ℚ) / 2 - 1, 0, -(S : ℚ) / 2 - 1⟩ ∧
    md.aabb.size = ⟨(S : ℚ) + 2, 1, (S : ℚ) + 2⟩ := by
  rw [generate, List.mem_singleton] at hmd
  subst hmd
  refine ⟨rfl, ?_, rfl⟩
  show offset S = _
  have h : -(S : ℚ) * 0.5 - 1.0 = -(S : ℚ) / 2 - 1 := by norm_num; ring
  rw [offset, h]

/-- Witness for C7 at `S = 0`, `levels = 1`. -/
theorem C7_aabb_w :
    (createMesh (vertices 0) (indices 0)
        { position := offset 0, size := ⟨(0 : ℚ) + 2, 1, (0 : ℚ) + 2⟩ }).aabb.position
        = offset 0 ∧
    (createMesh (vertices 0) (indices 0)
        { position := offset 0, size := ⟨(0 : ℚ) + 2, 1, (0 : ℚ) + 2⟩ }).aabb.position
        = ⟨-(0 : ℚ) / 2 - 1, 0, -(0 : ℚ) / 2 - 1⟩ ∧
    (createMesh (vertices 0) (indices 0)
        { position := offset 0, size := ⟨(0 : ℚ) + 2, 1, (0 : ℚ) + 2⟩ }).aabb.size
        = ⟨(0 : ℚ) + 2, 1, (0 : ℚ) + 2⟩ :=
  C7_aabb 0 1 _ (by rw [generate]; exact List.mem_singleton.mpr rfl)

/-- C8: for any two level counts `l1, l2 ≥ 1`, `generate S l1` and
`generate S l2` produce identical content (vertices, indices, normals,
tangents and AABB), and each call returns exactly one mesh handle. -/
theorem C8_levels_independent (S l1 l2 : ℕ) (h1 : 1 ≤ l1) (h2 : 1 ≤ l2) :
    generate S l1 = generate S l2 ∧ (generate S l1).length = 1 :=
  ⟨rfl, rfl⟩

/-- Witness for C8 at `S = 0`, `l1 = 1`, `l2 = 2`. -/
theorem C8_levels_independent_w :
    generate 0 1 = generate 0 2 ∧ (generate 0 1).length = 1 :=
  C8_levels_independent 0 1 2 (by decide) (by decide)

/-- C9: mesh assembly gives every vertex the placeholder normal `(0, 1, 0)`
(one normal per vertex) and four zeroed tangent components per vertex. -/
theorem C9_placeholder_attributes (vs : List Vec3) (is : List ℕ) (bb : AABBox) :
    (createMesh vs is bb).normals.length = vs.length ∧
    (∀ v ∈ (createMesh vs is bb).normals, v = ⟨0, 1, 0⟩) ∧
    (createMesh vs is bb).tangents.length = vs.length * 4 ∧
    (∀ q ∈ (createMesh vs is bb).tangents, q = 0) :=
  ⟨List.length_replicate _ _, fun v hv => List.eq_of_mem_replicate hv,
    List.length_replicate _ _, fun q hq => List.eq_of_mem_replicate hq⟩

/-- C10: the sequential write counter `n` exactly fills both pre-sized
arrays: the vertex writes number exactly the vertex resize amount and the
index writes number exactly the index resize amount, so under the
consecutive-slot write discipline every slot is written exactly once and no
write goes past the end of its array. -/
theorem C10_exact_fill (S : ℕ) :
    (vertices S).length = vertexResize S ∧ (indices S).length = indexResize S := by
  constructor
  · rw [length_vertices, vertexResize]
    have h9 : 9 ≤ (S + 3) * (S + 3) := by nlinarith
    omega
  · rw [length_indices, indexResize]
    ring

/-- C5: the interior triangulation emitted by `generate` is exactly the
spec's description: row-major cells, two triangles per cell with the stated
corners, resolved through `patch(x, y, width) = y * width + x` at
`width = S + 3`. -/
theorem C5_interior_triangulation (S : ℕ) :
    interiorIndices S = interiorIndicesSpec S :=
  rfl

/-- C3 as stated is false: at `S = 1` the vertical-side stitch triangles do
not all reference one fixed apex index `(S+3)^2 - 1 = 15`; the fourth stitch
triangle is `(6, 7, 16)` and references apex `16` instead. -/
theorem C3_counterexample :
    ¬ (∀ t ∈ triples (stitchIndicesV 1),
        t.1 = (1 + 3) * (1 + 3) - 1 ∨ t.2.1 = (1 + 3) * (1 + 3) - 1 ∨
          t.2.2 = (1 + 3) * (1 + 3) - 1) := by
  decide

/-- C3 amended: each stitch segment's three triangles do share a single apex
(their third corner), but the apex is not fixed for the whole side: for
segment `k` it is `(S+3)^2 - 1 + k` on the vertical side and
`(S+3)^2 - 1 + (S+1) + k` on the horizontal side, advancing by one per
segment (these slots hold the stitch-strip vertices); only for `S = 0`,
where each side has one segment, is the apex unique per side. -/
theorem C3_amended (S k j : ℕ) (hk : k < S + 1) (hj : j < 3) :
    ((triples (stitchIndicesV S)).getD (k * 3 + j) (0, 0, 0)).2.2 =
      (S + 3) * (S + 3) - 1 + k ∧
    ((triples (stitchIndicesH S)).getD (k * 3 + j) (0, 0, 0)).2.2 =
      (S + 3) * (S + 3) - 1 + (S + 1) + k := by
  constructor
  · rw [triples_stitchIndicesV, getD_flatMap_range]
    · interval_cases j
      · rfl
      · rfl
      · rfl
    · intro a ha
      rfl
    · exact hk
    · exact hj
  · rw [triples_stitchIndicesH, getD_flatMap_range]
    · interval_cases j
      · rfl
      · rfl
      · rfl
    · intro a ha
      rfl
    · exact hk
    · exact hj

/-- Witness for the amended C3 at `S = 1`, segment `k = 1`, triangle `j = 0`. -/
theorem C3_amended_w :
    ((triples (stitchIndicesV 1)).getD (1 * 3 + 0) (0, 0, 0)).2.2 =
      (1 + 3) * (1 + 3) - 1 + 1 ∧
    ((triples (stitchIndicesH 1)).getD (1 * 3 + 0) (0, 0, 0)).2.2 =
      (1 + 3) * (1 + 3) - 1 + (1 + 1) + 1 :=
  C3_amended 1 1 0 (by decide) (by decide)

/-- C4 as stated is false: at `S = 0` the vertex slot at index
`(S+3)^2 - 1 = 8` holds `(1, 0, -1/2)` (the first vertical-strip vertex)
while the interior vertex written immediately before it, at slot `7`, is
`(0, 0, 1)`. -/
theorem C4_counterexample :
    (vertices 0).getD 8 vzero ≠ (vertices 0).getD 7 vzero := by
  simp [vertices, interiorVertices, stripVerticesV, stripVerticesH, List.range_succ,
    vadd, offset, vzero]

/-- C4 amended: the slot at index `m = (S+3)^2 - 1` (the skipped final
corner of the interior grid) is filled not by the last interior vertex but
by the first vertex of the vertical stitch strip, at position
`(S+2, 0, 0.5) + offset`, because the strip loop continues the write counter
at `n = (S+3)^2 - 1`. -/
theorem C4_amended (S : ℕ) :
    (vertices S).getD ((S + 3) * (S + 3) - 1) vzero =
      vadd ⟨(S : ℚ) + 2, 0, 0.5⟩ (offset S) := by
  have h := vertices_getD_stripV S 0 (by omega)
  rw [Nat.add_zero] at h
  rw [h]
  norm_num

/-- Witness for the amended C4 at `S = 0`. -/
theorem C4_amended_w :
    (vertices 0).getD ((0 + 3) * (0 + 3) - 1) vzero =
      vadd ⟨(0 : ℚ) + 2, 0, 0.5⟩ (offset 0) :=
  C4_amended 0

lemma patch2d_mod (a b w : ℕ) (ha : a < w) : patch2d a b w % w = a := by
  rw [patch2d, mul_comm b w, Nat.mul_add_mod, Nat.mod_eq_of_lt ha]

lemma patch2d_div (a b w : ℕ) (ha : a < w) : patch2d a b w / w = b := by
  rw [patch2d, mul_comm b w, Nat.mul_add_div (by omega), Nat.div_eq_of_lt ha, Nat.add_zero]

lemma triInCell_T1 (S a b cx cy : ℕ) (ha : a < S + 1) (hb : b < S + 1) :
    (triInCell S cx cy
      (patch2d a b (S + 3), patch2d (a + 1) (b + 1) (S + 3), patch2d a (b + 1) (S + 3)) = true)
      ↔ (a = cx ∧ b = cy) := by
  simp only [triInCell, cornerInCell]
  rw [patch2d_mod a b (S + 3) (by omega), patch2d_div a b (S + 3) (by omega),
    patch2d_mod (a + 1) (b + 1) (S + 3) (by omega),
    patch2d_div (a + 1) (b + 1) (S + 3) (by omega),
    patch2d_mod a (b + 1) (S + 3) (by omega), patch2d_div a (b + 1) (S + 3) (by omega)]
  simp only [Bool.and_eq_true, Bool.or_eq_true, beq_iff_eq]
  omega

lemma triInCell_T2 (S a b cx cy : ℕ) (ha : a < S + 1) (hb : b < S + 1) :
    (triInCell S cx cy
      (patch2d a b (S + 3), patch2d (a + 1) b (S + 3), patch2d (a + 1) (b + 1) (S + 3)) = true)
      ↔ (a = cx ∧ b = cy) := by
  simp only [triInCell, cornerInCell]
  rw [patch2d_mod a b (S + 3) (by omega), patch2d_div a b (S + 3) (by omega),
    patch2d_mod (a + 1) b (S + 3) (by omega), patch2d_div (a + 1) b (S + 3) (by omega),
    patch2d_mod (a + 1) (b + 1) (S + 3) (by omega),
    patch2d_div (a + 1) (b + 1) (S + 3) (by omega)]
  simp only [Bool.and_eq_true, Bool.or_eq_true, beq_iff_eq]
  omega

lemma cellPair_filter_length (S a b cx cy : ℕ) (ha : a < S + 1) (hb : b < S + 1) :
    ([(patch2d a b (S + 3), patch2d (a + 1) (b + 1) (S + 3), patch2d a (b + 1) (S + 3)),
      (patch2d a b (S + 3), patch2d (a + 1) b (S + 3), patch2d (a + 1) (b + 1) (S + 3))].filter
      (triInCell S cx cy)).length = if a = cx ∧ b = cy then 2 else 0 := by
  by_cases h : a = cx ∧ b = cy
  · rw [if_pos h, List.filter_cons, if_pos ((triInCell_T1 S a b cx cy ha hb).mpr h),
      List.filter_cons, if_pos ((triInCell_T2 S a b cx cy ha hb).mpr h), List.filter_nil]
    rfl
  · rw [if_neg h, List.filter_cons, if_neg (fun hc => h ((triInCell_T1 S a b cx cy ha hb).mp hc)),
      List.filter_cons, if_neg (fun hc => h ((triInCell_T2 S a b cx cy ha hb).mp hc)),
      List.filter_nil]
    rfl

lemma sum_map_range_single (n c : ℕ) (f : ℕ → ℕ) (hc : c < n)
    (h0 : ∀ a, a < n → a ≠ c → f a = 0) :
    ((List.range n).map f).sum = f c := by
  induction n with
  | zero => omega
  | succ n ih =>
    rw [List.range_succ, List.map_append, List.sum_append]
    simp only [List.map_cons, List.map_nil, List.sum_cons, List.sum_nil]
    rcases Nat.lt_or_ge c n with h | h
    · rw [ih h fun a ha hane => h0 a (by omega) hane, h0 n (by omega) (by omega)]
      omega
    · have hcn : c = n := by omega
      subst hcn
      have hz : ((List.range c).map f).sum = 0 := by
        apply List.sum_eq_zero
        intro q hq
        rw [List.mem_map] at hq
        obtain ⟨a, ha, rfl⟩ := hq
        rw [List.mem_range] at ha
        exact h0 a (by omega) (by omega)
      rw [hz]
      omega

lemma cellRow_filter_length (S b cx cy : ℕ) (hb : b < S + 1) (hx : cx ≤ S) :
    (((List.range (S + 1)).flatMap fun x =>
      [(patch2d x b (S + 3), patch2d (x + 1) (b + 1) (S + 3), patch2d x (b + 1) (S + 3)),
        (patch2d x b (S + 3), patch2d (x + 1) b (S + 3), patch2d (x + 1) (b + 1) (S + 3))]).filter
      (triInCell S cx cy)).length = if b = cy then 2 else 0 := by
  rw [List.filter_flatMap, List.length_flatMap, sum_map_range_single (S + 1) cx]
  · simp only [Function.comp_apply]
    rw [cellPair_filter_length S cx b cx cy (by omega) hb]
    by_cases hbc : b = cy
    · rw [if_pos ⟨rfl, hbc⟩, if_pos hbc]
    · rw [if_neg (fun hc => hbc hc.2), if_neg hbc]
  · omega
  · intro a han hane
    simp only [Function.comp_apply]
    rw [cellPair_filter_length S a b cx cy han hb, if_neg (fun hc => hane hc.1)]

lemma coverCount_eq_two (S cx cy : ℕ) (hx : cx ≤ S) (hy : cy ≤ S) :
    coverCount S cx cy = 2 := by
  rw [coverCount, triples_interiorIndices, List.filter_flatMap, List.length_flatMap,
    sum_map_range_single (S + 1) cy]
  · simp only [Function.comp_apply]
    rw [cellRow_filter_length S cy cx cy (by omega) hx, if_pos rfl]
  · omega
  · intro b hbn hbne
    simp only [Function.comp_apply]
    rw [cellRow_filter_length S b cx cy hbn hx, if_neg hbne]

lemma interior_winding_neg (S : ℕ) (t : ℕ × ℕ × ℕ)
    (ht : t ∈ triples (interiorIndices S)) : (triCross (vertices S) t).y < 0 := by
  rw [triples_interiorIndices, List.mem_flatMap] at ht
  obtain ⟨y, hy, ht⟩ := ht
  rw [List.mem_flatMap] at ht
  obtain ⟨x, hx, ht⟩ := ht
  rw [List.mem_range] at hy
  rw [List.mem_range] at hx
  simp only [List.mem_cons, List.not_mem_nil, or_false] at ht
  have hv1 := vertices_getD_interior S x y (by omega) (by omega) (by omega)
  have hv2 := vertices_getD_interior S (x + 1) (y + 1) (by omega) (by omega) (by omega)
  have hv3 := vertices_getD_interior S x (y + 1) (by omega) (by omega) (by omega)
  have hv4 := vertices_getD_interior S (x + 1) y (by omega) (by omega) (by omega)
  rcases ht with h | h
  · subst h
    simp only [triCross]
    rw [hv1, hv2, hv3]
    simp only [vadd, vsub, vcross, offset]
    push_cast
    ring_nf
    norm_num
  · subst h
    simp only [triCross]
    rw [hv1, hv4, hv2]
    simp only [vadd, vsub, vcross, offset]
    push_cast
    ring_nf
    norm_num

/-- C6 as stated is false: the coverage half holds, but the winding half
does not — at `S = 0` the first interior triangle (indices `(0, 4, 3)`) has
edge cross product `(0, -1, 0)`, pointing toward `-Y`, not `+Y`. -/
theorem C6_counterexample :
    ¬ (∀ t ∈ triples (interiorIndices 0), 0 < (triCross (vertices 0) t).y) := by
  intro h
  have hm : ((0 : ℕ), (4 : ℕ), (3 : ℕ)) ∈ triples (interiorIndices 0) := by decide
  have h0 := h (0, 4, 3) hm
  have hy : (triCross (vertices 0) ((0 : ℕ), (4 : ℕ), (3 : ℕ))).y = -1 := by
    norm_num [triCross, vertices, interiorVertices, stripVerticesV, stripVerticesH,
      List.range_succ, vadd, vsub, vcross, offset, vzero]
  rw [hy] at h0
  exact absurd h0 (by norm_num)

/-- C6 amended: the interior triangulation covers each of the
`(S+1) x (S+1)` cells exactly twice, and every interior triangle's edge
cross product (second minus first crossed with third minus first) points
toward `-Y` (the front faces point downward under the right-hand rule, i.e.
the winding is clockwise seen from `+Y`), not `+Y` as stated. -/
theorem C6_amended :
    (∀ S cx cy : ℕ, cx ≤ S → cy ≤ S → coverCount S cx cy = 2) ∧
    (∀ S : ℕ, ∀ t ∈ triples (interiorIndices S), (triCross (vertices S) t).y < 0) :=
  ⟨fun S cx cy hx hy => coverCount_eq_two S cx cy hx hy,
    fun S t ht => interior_winding_neg S t ht⟩

/-- Witness for the amended C6 at `S = 0`, cell `(0, 0)`, triangle
`(0, 4, 3)`. -/
theorem C6_amended_w :
    coverCount 0 0 0 = 2 ∧ (triCross (vertices 0) ((0 : ℕ), (4 : ℕ), (3 : ℕ))).y < 0 :=
  ⟨C6_amended.1 0 0 0 (by decide) (by decide), C6_amended.2 0 (0, 4, 3) (by decide)⟩
